import Mathlib

/-
  Verification development for the Storybook generator application.

  The application turns a topic string into an illustrated, narrated
  storybook: a text-generation response is parsed into pages by a fixed
  delimiter grammar, per-page image and audio assets are fetched by a
  background pipeline, and a viewer renders the pages with an audio
  playback transport and a PDF export.

  Strings are modelled as `List Char`.  The JavaScript regular expressions
  used by the parser are modelled by hand-rolled scanners whose semantics
  coincide with the JS engine on the patterns involved (the patterns are
  backtracking-free: every greedy sub-pattern is followed by a character
  class disjoint from it, so maximal-run scanning is exact).
-/

namespace Storybook

set_option maxRecDepth 8192

/-! ### Character classes (JS `\s`, `\d`) -/

/-- The whitespace characters recognised by the JS `\s` class (ASCII part)
    and by `String.prototype.trim`. -/
def isWsChar (c : Char) : Bool :=
  c == ' ' || c == '\t' || c == '\n' || c == '\r' ||
  c == Char.ofNat 11 || c == Char.ofNat 12

/-- The JS `\d` class: the digits 0-9. -/
def isDigitChar (c : Char) : Bool :=
  decide ('0' ≤ c) && decide (c ≤ '9')

/-! ### Scanning primitives -/

/-- Take the maximal run of characters satisfying `p` from the front;
    return how many were taken and the rest. -/
def takeRun (p : Char → Bool) : List Char → Nat × List Char
  | [] => (0, [])
  | c :: rest =>
    if p c then ((takeRun p rest).1 + 1, (takeRun p rest).2)
    else (0, c :: rest)

/-- Require a run of at least `lo` characters satisfying `p`; on success
    return the rest of the input (greedy: the whole run is consumed). -/
def reqRun (p : Char → Bool) (lo : Nat) (s : List Char) : Option (List Char) :=
  if (takeRun p s).1 < lo then none else some (takeRun p s).2

/-- Skip the maximal run of whitespace (JS `\s*`). -/
def skipWs (s : List Char) : List Char :=
  (takeRun isWsChar s).2

/-- Strip a literal, case-insensitively (JS `/i` flag). -/
def stripLitCI : List Char → List Char → Option (List Char)
  | [], s => some s
  | _ :: _, [] => none
  | n :: ns, c :: cs =>
    if n.toLower = c.toLower then stripLitCI ns cs else none

/-- The literal token in the page separator. -/
def halamanChars : List Char := ['H', 'A', 'L', 'A', 'M', 'A', 'N']

/-- Attempt to match the page-separator regex
    `={10,}\s*HALAMAN\s*\d+\s*={10,}` (flag `i`) at the head of the input;
    on success return the input that remains after the match.  Each greedy
    piece is followed by a disjoint character class, so taking maximal
    runs is exactly the JS backtracking semantics. -/
def matchSepHere (s : List Char) : Option (List Char) :=
  (reqRun (fun c => c == '=') 10 s).bind fun r1 =>
  (stripLitCI halamanChars (skipWs r1)).bind fun r3 =>
  (reqRun isDigitChar 1 (skipWs r3)).bind fun r5 =>
  reqRun (fun c => c == '=') 10 (skipWs r5)

/-- Fuel-indexed worker for `String.prototype.split` on the separator
    regex: scan left to right, cutting at every (leftmost, non-overlapping)
    separator match.  The fuel is an upper bound on the input length; each
    step consumes at least one character. -/
def splitGo : Nat → List Char → List Char → List (List Char)
  | _, [], acc => [acc.reverse]
  | 0, s, acc => [acc.reverse ++ s]
  | fuel + 1, c :: rest, acc =>
    match matchSepHere (c :: rest) with
    | some r => acc.reverse :: splitGo fuel r []
    | none => splitGo fuel rest (c :: acc)

/-- The splitter started with exactly enough fuel. -/
def splitFrom (s acc : List Char) : List (List Char) :=
  splitGo s.length s acc

/-- Model of `text.split(/={10,}\s*HALAMAN\s*\d+\s*={10,}/i)`. -/
def splitSep (s : List Char) : List (List Char) :=
  splitFrom s []

/-! ### Section extraction within one raw page block -/

/-- Case-insensitive "the needle occurs at the head of the haystack". -/
def startsWithCI : List Char → List Char → Bool
  | [], _ => true
  | _ :: _, [] => false
  | n :: ns, c :: cs => (n.toLower == c.toLower) && startsWithCI ns cs

/-- Find the leftmost case-insensitive occurrence of `needle`; return the
    text before it and the text after it. -/
def findSplitCI (needle : List Char) : List Char → Option (List Char × List Char)
  | [] => if startsWithCI needle [] then some ([], []) else none
  | c :: rest =>
    if startsWithCI needle (c :: rest) then
      some ([], List.drop needle.length (c :: rest))
    else
      (findSplitCI needle rest).map fun p => (c :: p.1, p.2)

/-- Does a run of at least ten `=` characters start here?  (The `={10,}`
    alternative of the voice-section terminator.) -/
def startsEqRun10 (s : List Char) : Bool :=
  decide (10 ≤ (takeRun (fun c => c == '=') s).1)

/-- Lazy capture `([\s\S]*?)(?:={10,}|$)`: everything up to the first
    position where a run of ten `=` starts, or the whole input. -/
def takeUntilEqRun : List Char → List Char
  | [] => []
  | c :: rest =>
    if startsEqRun10 (c :: rest) then [] else c :: takeUntilEqRun rest

def lblDeskripsi : List Char := "[DESKRIPSI ILUSTRASI]".toList
def lblCerita : List Char := "[TEKS CERITA]".toList
def lblSuara : List Char := "[TEKS SUARA]".toList

/-- Model of `rawPage.match(/\[DESKRIPSI ILUSTRASI\]([\s\S]*?)\[TEKS CERITA\]/i)`:
    capture group 1, when the overall match succeeds. -/
def descCapture (rawPage : List Char) : Option (List Char) :=
  (findSplitCI lblDeskripsi rawPage).bind fun p1 =>
  (findSplitCI lblCerita p1.2).map fun p2 => p2.1

/-- Model of `rawPage.match(/\[TEKS CERITA\]([\s\S]*?)\[TEKS SUARA\]/i)`. -/
def storyCapture (rawPage : List Char) : Option (List Char) :=
  (findSplitCI lblCerita rawPage).bind fun p1 =>
  (findSplitCI lblSuara p1.2).map fun p2 => p2.1

/-- Model of `rawPage.match(/\[TEKS SUARA\]([\s\S]*?)(?:={10,}|$)/i)`. -/
def voiceCapture (rawPage : List Char) : Option (List Char) :=
  (findSplitCI lblSuara rawPage).map fun p1 => takeUntilEqRun p1.2

/-- Model of `String.prototype.trim`. -/
def trimWs (s : List Char) : List Char :=
  ((s.dropWhile isWsChar).reverse.dropWhile isWsChar).reverse

/-! ### The page record and the parser -/

/-- The `StoryPage` record of `types.ts`.  `audioBuffer` is modelled as an
    opaque handle (`Option Nat`); absent optional fields are `none`. -/
structure StoryPage where
  pageNumber : Nat
  illustrationDescription : List Char
  storyText : List Char
  voiceText : List Char
  imageUrl : Option (List Char)
  audioBuffer : Option Nat
  isLoadingAssets : Bool
deriving DecidableEq

/-- The three section matches of one raw page block.  The push condition
    in `parseStoryResponse` is `descMatch && storyMatch && voiceMatch`:
    the truthiness of the three match objects, with no emptiness test. -/
def parseBlock (rawPage : List Char) : Option (List Char × List Char × List Char) :=
  match descCapture rawPage, storyCapture rawPage, voiceCapture rawPage with
  | some d, some st, some v => some (d, st, v)
  | _, _, _ => none

/-- The `rawPages.forEach((rawPage, index) => ...)` loop: `index` counts
    every raw block, including the ones that are dropped. -/
def buildPages : Nat → List (List Char) → List StoryPage
  | _, [] => []
  | index, rawPage :: rest =>
    match parseBlock rawPage with
    | some dsv =>
      { pageNumber := index + 1,
        illustrationDescription := trimWs dsv.1,
        storyText := trimWs dsv.2.1,
        voiceText := trimWs dsv.2.2,
        imageUrl := none,
        audioBuffer := none,
        isLoadingAssets := true } :: buildPages (index + 1) rest
    | none => buildPages (index + 1) rest

/-- The function `parseStoryResponse` of `geminiService.ts`: split on the separator
    regex, drop the text before the first separator (`.slice(1)`), then
    keep every block whose three section regexes all match. -/
def parseStoryResponse (text : List Char) : List StoryPage :=
  buildPages 0 ((splitSep text).drop 1)

/-- Projection helpers used to state concrete facts without lambdas. -/
def pageNumbersOf (pages : List StoryPage) : List Nat :=
  pages.map StoryPage.pageNumber

def storyTextsOf (pages : List StoryPage) : List (List Char) :=
  pages.map StoryPage.storyText

/-! ### `generateStoryText` and the top-level app (`App.tsx`) -/

/-- The function `generateStoryText`: the backend response text is `none` when the
    field is absent; `if (!text) throw new Error("No text generated")`
    also fires on the empty string.  Otherwise the parser runs and any
    error propagates to the caller. -/
def generateStoryText (responseText : Option (List Char)) :
    Except (List Char) (List StoryPage) :=
  match responseText with
  | none => Except.error "No text generated".toList
  | some text =>
    if text = [] then Except.error "No text generated".toList
    else Except.ok (parseStoryResponse text)

inductive AppState where
  | input
  | generating_text
  | generating_assets
  | reading
  | error
deriving DecidableEq

structure AppModel where
  appState : AppState
  topic : List Char
  pages : List StoryPage
  errorMsg : Option (List Char)
deriving DecidableEq

/-- The reset action `resetApp`: back to the input screen with everything cleared. -/
def resetApp : AppModel :=
  { appState := AppState.input, topic := [], pages := [], errorMsg := none }

/-- The handler `handleGenerate`, up to the point where the app settles in `reading`
    or `error` (the transient `generating_text`/`generating_assets`
    states are passed through synchronously).  An empty parsed page
    sequence throws `"Failed to generate valid story structure."`, which
    the catch turns into the error state. -/
def handleGenerate (st : AppModel) (responseText : Option (List Char)) : AppModel :=
  if trimWs st.topic = [] then st
  else
    match generateStoryText responseText with
    | Except.error msg => { st with appState := AppState.error, errorMsg := some msg }
    | Except.ok storyPages =>
      if storyPages.length = 0 then
        { st with appState := AppState.error,
                  errorMsg := some "Failed to generate valid story structure.".toList }
      else
        { st with appState := AppState.reading, pages := storyPages }

/-! ### The per-page state merge and the asset pipeline (`App.tsx`) -/

/-- JS truthiness of an optional string (`undefined` and `""` are falsy). -/
def jsTruthyStr : Option (List Char) → Bool
  | none => false
  | some s => !s.isEmpty

/-- One `updates` object passed to `updatePage`: a field is `none` when
    the key is absent from the object (spread keeps the old value). -/
structure PageUpdates where
  imageUrl : Option (Option (List Char))
  audioBuffer : Option (Option Nat)
  isLoadingAssets : Option Bool
deriving DecidableEq

/-- The object spread merging `updates` into `page`. -/
def applyUpdates (p : StoryPage) (u : PageUpdates) : StoryPage :=
  { p with
    imageUrl := u.imageUrl.getD p.imageUrl,
    audioBuffer := u.audioBuffer.getD p.audioBuffer,
    isLoadingAssets := u.isLoadingAssets.getD p.isLoadingAssets }

/-- The merge `updatePage` of `App.tsx`: a no-op when no page exists at `index`
    (`if (!newPages[index]) return newPages`, the guard against merges
    arriving after a session reset); otherwise replace index `index` with
    the merged record, clearing `isLoadingAssets` once both an image and
    an audio buffer are present. -/
def updatePage (pages : List StoryPage) (index : Nat) (updates : PageUpdates) :
    List StoryPage :=
  match pages[index]? with
  | none => pages
  | some p =>
    let merged := applyUpdates p updates
    let merged2 :=
      if jsTruthyStr merged.imageUrl && merged.audioBuffer.isSome then
        { merged with isLoadingAssets := false }
      else merged
    pages.set index merged2

/-- The pipeline state: the shared page sequence plus the log of the
    narration and illustration requests that were issued. -/
structure PipelineState where
  pages : List StoryPage
  narCalls : List (List Char)
  illCalls : List (List Char)
deriving DecidableEq

/-- The `for` loop of `generateAssetsInBackground`, walking the snapshot
    `storyPages` one page at a time.  `generateIllustration` receives
    `page.illustrationDescription`; `generateNarration` receives
    `page.storyText` (the source carries the comment "FIX: Use
    page.storyText instead of page.voiceText").  The oracles `genIll` and
    `genNar` stand for the two backend calls; `genNar` returns `none`
    when narration fails (the wrapper absorbs its errors). -/
def assetLoop (genIll : List Char → List Char) (genNar : List Char → Option Nat) :
    List StoryPage → Nat → PipelineState → PipelineState
  | [], _, st => st
  | page :: rest, i, st =>
    let illReq := page.illustrationDescription
    let narReq := page.storyText
    let st1 : PipelineState :=
      { pages := updatePage st.pages i
          { imageUrl := some (some (genIll illReq)),
            audioBuffer := some (genNar narReq),
            isLoadingAssets := some false },
        narCalls := st.narCalls ++ [narReq],
        illCalls := st.illCalls ++ [illReq] }
    assetLoop genIll genNar rest (i + 1) st1

/-- The pipeline `generateAssetsInBackground storyPages`, run against the current
    shared sequence `cur` (equal to `storyPages` unless a reset happened). -/
def generateAssetsInBackground (genIll : List Char → List Char)
    (genNar : List Char → Option Nat) (storyPages : List StoryPage)
    (cur : List StoryPage) : PipelineState :=
  assetLoop genIll genNar storyPages 0
    { pages := cur, narCalls := [], illCalls := [] }

/-! ### `generateIllustration` (`geminiService.ts`) -/

structure InlineData where
  data : Option (List Char)
deriving DecidableEq

structure GenPart where
  inlineData : Option InlineData
deriving DecidableEq

/-- The parts loop: return the first part whose `inlineData.data` is
    present and truthy (a non-empty string). -/
def findInlineImage : List GenPart → Option (List Char)
  | [] => none
  | part :: rest =>
    match part.inlineData with
    | some idata =>
      match idata.data with
      | some d => if d.isEmpty then findInlineImage rest else some d
      | none => findInlineImage rest
    | none => findInlineImage rest

def dataUriStart : List Char := "data:image/png;base64,".toList

/-- The placeholder URL; `rand` models the `Math.random()` suffix. -/
def placeholderUrl (rand : List Char) : List Char :=
  "https://picsum.photos/1024/1024?random=".toList ++ rand

/-- The function `generateIllustration`: the request either errors (`Except.error`) or
    returns the optional parts array
    (`response.candidates?.[0]?.content?.parts`).  A missing image part
    raises, and the catch converts every failure into the placeholder. -/
def generateIllustration (resp : Except Unit (Option (List GenPart)))
    (rand : List Char) : List Char :=
  match resp with
  | Except.error _ => placeholderUrl rand
  | Except.ok maybeParts =>
    match maybeParts with
    | none => placeholderUrl rand
    | some parts =>
      match findInlineImage parts with
      | some d => dataUriStart ++ d
      | none => placeholderUrl rand

/-! ### The raw-PCM fallback of `decodeAudioData` (`audioUtils.ts`) -/

/-- Model of `new Int16Array(data.buffer)`: consecutive little-endian byte pairs
    reinterpreted as 16-bit signed integers.  (The bytes come from a
    `Uint8Array`, so each entry is below 256.) -/
def bytesToInt16LE : List Nat → List Int
  | lo :: hi :: rest =>
    (if lo + 256 * hi < 32768 then ((lo + 256 * hi : Nat) : Int)
     else ((lo + 256 * hi : Nat) : Int) - 65536) :: bytesToInt16LE rest
  | _ => []

/-- Little-endian encoding of 16-bit signed samples, the inverse wire
    format fed to the fallback path. -/
def encodeInt16LE : List Int → List Nat
  | [] => []
  | s :: rest =>
    ((s % 65536).toNat % 256) :: ((s % 65536).toNat / 256) :: encodeInt16LE rest

/-- The buffer built by `ctx.createBuffer` + `getChannelData` writes.
    Float samples are modelled as rationals: for 16-bit inputs the
    division by 32768 is exact in 32-bit floats. -/
structure AudioBufferM where
  numChannels : Nat
  frameCount : Nat
  sampleRate : Nat
  channels : List (List ℚ)
deriving DecidableEq

/-- The catch-branch of `decodeAudioData`: manual raw-PCM decoding.
    `channelData[i] = dataInt16[i * numChannels + channel] / 32768.0`. -/
def decodeAudioDataFallback (data : List Nat) (sampleRate : Nat)
    (numChannels : Nat) : AudioBufferM :=
  let dataInt16 := bytesToInt16LE data
  let frameCount := dataInt16.length / numChannels
  { numChannels := numChannels,
    frameCount := frameCount,
    sampleRate := sampleRate,
    channels := (List.range numChannels).map fun channel =>
      (List.range frameCount).map fun i =>
        ((dataInt16.getD (i * numChannels + channel) 0 : Int) : ℚ) / 32768 }

/-! ### Viewer navigation (`BookViewer.tsx`) -/

/-- The handler `handleNext`: `if (currentPageIndex < pages.length - 1) +1`. -/
def handleNext (pagesLen currentPageIndex : Nat) : Nat :=
  if currentPageIndex < pagesLen - 1 then currentPageIndex + 1 else currentPageIndex

/-- The handler `handlePrev` as written in the source:
    `if (currentPageIndex > 0) setCurrentPageIndex(prev => prev + 1)`. -/
def handlePrev (currentPageIndex : Nat) : Nat :=
  if 0 < currentPageIndex then currentPageIndex + 1 else currentPageIndex

/-! ### PDF export (`handleDownloadPdf` of `BookViewer.tsx`) -/

/-- The jsPDF document: `new jsPDF(...)` starts with one (empty) page;
    `addPage` appends one; `addImage` draws on the current page.
    `drawnImages` records the rasterised page images in draw order. -/
structure JsPdfDoc where
  pageCount : Nat
  drawnImages : List (List Char)
deriving DecidableEq

/-- The export loop: skip pages whose image is not truthy
    (`if (!page.imageUrl) continue`); for an included page at overall
    index `i`, call `addPage` when `i > 0`, then draw the page. -/
def pdfLoop : Nat → List StoryPage → JsPdfDoc → JsPdfDoc
  | _, [], doc => doc
  | i, page :: rest, doc =>
    match page.imageUrl with
    | none => pdfLoop (i + 1) rest doc
    | some img =>
      if img.isEmpty then pdfLoop (i + 1) rest doc
      else
        let doc1 := if 0 < i then { doc with pageCount := doc.pageCount + 1 } else doc
        let doc2 := { doc1 with drawnImages := doc1.drawnImages ++ [img] }
        pdfLoop (i + 1) rest doc2

/-- The export `handleDownloadPdf`, reduced to the document it builds. -/
def handleDownloadPdf (pages : List StoryPage) : JsPdfDoc :=
  pdfLoop 0 pages { pageCount := 1, drawnImages := [] }

/-- The pages the export includes. -/
def pagesWithImage (pages : List StoryPage) : List StoryPage :=
  pages.filter fun p => jsTruthyStr p.imageUrl

/-! ### The audio playback transport (`BookViewer.tsx`) -/

/-- The playback transport state, generic in the buffer type `β` (JS
    compares buffers by reference; `β` with decidable equality models
    those references).  `activeNodes` is the list of source nodes that
    have been started and not stopped, newest first, each tagged with a
    fresh id; `refNode` is the node held in `sourceNodeRef`; `playing`
    is the `playingAudioBuffer` React state. -/
structure Transport (β : Type) where
  nextId : Nat
  activeNodes : List (Nat × β)
  refNode : Option (Nat × β)
  playing : Option β

/-- The transport action `stopAudio`: stop and disconnect the referenced node (if any), clear
    the ref, clear `playingAudioBuffer`. -/
def stopAudio {β : Type} (t : Transport β) : Transport β :=
  match t.refNode with
  | none => { t with playing := none }
  | some node =>
    { t with
      activeNodes := t.activeNodes.filter fun x => x.1 != node.1,
      refNode := none,
      playing := none }

/-- The transport action `playAudio buffer`: stop whatever is playing, then create, connect
    and start a fresh source node bound to `buffer`. -/
def playAudio {β : Type} (buffer : β) (t : Transport β) : Transport β :=
  let t1 := stopAudio t
  { nextId := t1.nextId + 1,
    activeNodes := (t1.nextId, buffer) :: t1.activeNodes,
    refNode := some (t1.nextId, buffer),
    playing := some buffer }

/-- The transport action `toggleAudio`: no-op on an absent buffer; stop when the requested
    buffer is the one playing; otherwise switch to it. -/
def toggleAudio {β : Type} [DecidableEq β] (buffer : Option β) (t : Transport β) :
    Transport β :=
  match buffer with
  | none => t
  | some b => if t.playing = some b then stopAudio t else playAudio b t

/-- The transport invariant: the started-and-not-stopped nodes are
    exactly the node in `sourceNodeRef`. -/
def transportInv {β : Type} (t : Transport β) : Prop :=
  t.activeNodes = t.refNode.toList

/-! ### Canonical separator blocks, for stating parser properties -/

/-- One separator in the format the system prompt demands: a line of 40
    `=`, the literal `HALAMAN` followed by a numeral token, and another
    line of 40 `=`. -/
def sep (numToken : List Char) : List Char :=
  List.replicate 40 '=' ++ ('\n' :: halamanChars) ++ (' ' :: numToken) ++
    ('\n' :: List.replicate 40 '=')

/-- A blob of blocks, each preceded by its separator. -/
def assembleItems : List (List Char × List Char) → List Char
  | [] => []
  | it :: rest => sep it.1 ++ (it.2 ++ assembleItems rest)

/-- The side conditions under which the separator grammar is unambiguous:
    a numeral token is a non-empty digit string, and a block is non-empty
    and free of `=` (so no separator match can start inside it or spill
    across its boundary). -/
abbrev cleanItem (it : List Char × List Char) : Prop :=
  it.1 ≠ [] ∧ (∀ c ∈ it.1, isDigitChar c = true) ∧
  it.2 ≠ [] ∧ (∀ c ∈ it.2, (c == '=') = false)

/-- The one-based positions (among all raw blocks) of the blocks the
    parser accepts: the page numbers `parseStoryResponse` assigns. -/
def pagePositions : Nat → List (List Char) → List Nat
  | _, [] => []
  | i, b :: rest =>
    if (parseBlock b).isSome then (i + 1) :: pagePositions (i + 1) rest
    else pagePositions (i + 1) rest

/-- The blocks the parser accepts. -/
def acceptedBlocks (raws : List (List Char)) : List (List Char) :=
  raws.filter fun b => (parseBlock b).isSome

/-! ### Concrete inputs used in counterexamples and instantiations -/

/-- A well-formed page block: all three sections present with non-empty
    content. -/
def goodBlock : List Char :=
  "\n\n[DESKRIPSI ILUSTRASI]\nA cat.\n[TEKS CERITA]\nOnce upon a time.\n[TEKS SUARA]\nMeow.\n\n".toList

/-- A malformed block: no labelled sections at all. -/
def badBlock : List Char := "\njunk block\n".toList

/-- A block whose three labels are present but whose contents are all
    empty after trimming. -/
def emptyLabelsBlock : List Char :=
  "\n[DESKRIPSI ILUSTRASI][TEKS CERITA][TEKS SUARA]\n".toList

/-- A malformed block followed by a well-formed one. -/
def c1CexText : List Char :=
  assembleItems [(['7'], badBlock), (['3'], goodBlock)]

/-- A single block with present labels and empty section contents. -/
def c3CexText : List Char :=
  assembleItems [(['1'], emptyLabelsBlock)]

/-- One parsed page (assets not yet resolved). -/
def samplePage (n : Nat) : StoryPage :=
  { pageNumber := n,
    illustrationDescription := ['d'],
    storyText := ['s'],
    voiceText := ['v'],
    imageUrl := none,
    audioBuffer := none,
    isLoadingAssets := true }

/-- A page whose image has resolved. -/
def samplePageWithImage (n : Nat) : StoryPage :=
  { samplePage n with imageUrl := some ['i'], isLoadingAssets := false }

/-- A first page without an image followed by a second page with one:
    the input on which the PDF export emits a leading blank page. -/
def c2FailPages : List StoryPage :=
  [samplePage 1, samplePageWithImage 2]

/-! ## Helper lemmas: the run scanner -/

theorem takeRun_append (p : Char → Bool) (u v : List Char)
    (hu : ∀ c ∈ u, p c = true)
    (hv : ∀ c, v.head? = some c → p c = false) :
    takeRun p (u ++ v) = (u.length, v) := by
  induction u with
  | nil =>
    cases v with
    | nil => rfl
    | cons c rest =>
      have : p c = false := hv c rfl
      simp [takeRun, this]
  | cons c u ih =>
    have hc : p c = true := hu c (List.mem_cons_self c u)
    have ih2 := ih (fun d hd => hu d (List.mem_cons_of_mem c hd))
    simp [takeRun, hc, ih2]

theorem takeRun_len (p : Char → Bool) (s : List Char) :
    (takeRun p s).1 + (takeRun p s).2.length = s.length := by
  induction s with
  | nil => rfl
  | cons c rest ih =>
    by_cases hc : p c = true
    · simp [takeRun, hc]; omega
    · have : p c = false := by simpa using hc
      simp [takeRun, this]

theorem reqRun_append (p : Char → Bool) (lo : Nat) (u v : List Char)
    (hu : ∀ c ∈ u, p c = true)
    (hv : ∀ c, v.head? = some c → p c = false)
    (hlo : lo ≤ u.length) :
    reqRun p lo (u ++ v) = some v := by
  unfold reqRun
  rw [takeRun_append p u v hu hv]
  simp
  omega

theorem reqRun_some_len (p : Char → Bool) (lo : Nat) (s r : List Char)
    (h : reqRun p lo s = some r) :
    r.length + lo ≤ s.length := by
  unfold reqRun at h
  split at h
  · exact absurd h (by simp)
  · rename_i hge
    have hr : (takeRun p s).2 = r := by simpa using h
    have hlen := takeRun_len p s
    rw [hr] at hlen
    omega

theorem skipWs_append (u v : List Char)
    (hu : ∀ c ∈ u, isWsChar c = true)
    (hv : ∀ c, v.head? = some c → isWsChar c = false) :
    skipWs (u ++ v) = v := by
  unfold skipWs
  rw [takeRun_append isWsChar u v hu hv]

theorem skipWs_len (s : List Char) : (skipWs s).length ≤ s.length := by
  unfold skipWs
  have := takeRun_len isWsChar s
  omega

theorem stripLitCI_self (u v : List Char) : stripLitCI u (u ++ v) = some v := by
  induction u with
  | nil => rfl
  | cons c u ih => simp [stripLitCI, ih]

theorem stripLitCI_len (n s r : List Char) (h : stripLitCI n s = some r) :
    r.length ≤ s.length := by
  induction n generalizing s with
  | nil =>
    have : s = r := by simpa [stripLitCI] using h
    simp [this]
  | cons c n ih =>
    cases s with
    | nil => exact absurd h (by simp [stripLitCI])
    | cons d s =>
      unfold stripLitCI at h
      split at h
      · have := ih s h
        simp
        omega
      · exact absurd h (by simp)

/-! ## Helper lemmas: the separator matcher -/

theorem headPredOfCons (p : Char → Bool) (a : Char) (L : List Char)
    (ha : p a = false) :
    ∀ c, (a :: L).head? = some c → p c = false := by
  intro c hc
  have hac : a = c := by simpa using hc
  exact hac ▸ ha

theorem ws_not_digit (c : Char) (h : isWsChar c = true) : isDigitChar c = false := by
  unfold isWsChar at h
  simp only [Bool.or_eq_true, beq_iff_eq] at h
  rcases h with ((((rfl | rfl) | rfl) | rfl) | rfl) | rfl <;> decide

theorem digit_not_ws (c : Char) (h : isDigitChar c = true) : isWsChar c = false := by
  cases hw : isWsChar c
  · rfl
  · rw [ws_not_digit c hw] at h
    exact absurd h (by simp)

theorem eqRunChars (c : Char) (hc : c ∈ List.replicate 40 '=') : (c == '=') = true := by
  rw [List.eq_of_mem_replicate hc]
  decide

theorem matchSepHere_nil : matchSepHere [] = none := rfl

theorem matchSepHere_none_head (c : Char) (rest : List Char)
    (hc : (c == '=') = false) : matchSepHere (c :: rest) = none := by
  unfold matchSepHere
  have h1 : reqRun (fun x => x == '=') 10 (c :: rest) = none := by
    unfold reqRun
    have ht : takeRun (fun x => x == '=') (c :: rest) = (0, c :: rest) := by
      simp [takeRun, hc]
    rw [ht]
    simp
  rw [h1]
  rfl

theorem matchSepHere_some_len (s r : List Char) (h : matchSepHere s = some r) :
    r.length < s.length := by
  unfold matchSepHere at h
  cases h1 : reqRun (fun c => c == '=') 10 s with
  | none => rw [h1] at h; exact absurd h (by simp)
  | some r1 =>
    rw [h1] at h
    simp only [Option.some_bind] at h
    cases h3 : stripLitCI halamanChars (skipWs r1) with
    | none => rw [h3] at h; exact absurd h (by simp)
    | some r3 =>
      rw [h3] at h
      simp only [Option.some_bind] at h
      cases h5 : reqRun isDigitChar 1 (skipWs r3) with
      | none => rw [h5] at h; exact absurd h (by simp)
      | some r5 =>
        rw [h5] at h
        simp only [Option.some_bind] at h
        have l1 := reqRun_some_len _ _ _ _ h1
        have l2 := skipWs_len r1
        have l3 := stripLitCI_len _ _ _ h3
        have l4 := skipWs_len r3
        have l5 := reqRun_some_len _ _ _ _ h5
        have l6 := skipWs_len r5
        have l7 := reqRun_some_len _ _ _ _ h
        omega

theorem matchSepHere_sep (ds r : List Char)
    (hds : ds ≠ []) (hdigit : ∀ c ∈ ds, isDigitChar c = true)
    (hr : ∀ c, r.head? = some c → (c == '=') = false) :
    matchSepHere (sep ds ++ r) = some r := by
  obtain ⟨d0, ds', rfl⟩ := List.exists_cons_of_ne_nil hds
  have hA : reqRun (fun c => c == '=') 10 (sep (d0 :: ds') ++ r)
      = some ('\n' :: (halamanChars ++ (' ' :: ((d0 :: ds') ++
          ('\n' :: (List.replicate 40 '=' ++ r)))))) := by
    have e0 : sep (d0 :: ds') ++ r
        = List.replicate 40 '=' ++ ('\n' :: (halamanChars ++ (' ' :: ((d0 :: ds') ++
            ('\n' :: (List.replicate 40 '=' ++ r)))))) := by
      simp [sep]
    rw [e0]
    exact reqRun_append _ 10 _ _ eqRunChars
      (headPredOfCons _ '\n' _ (by decide)) (by simp)
  have hB : skipWs ('\n' :: (halamanChars ++ (' ' :: ((d0 :: ds') ++
      ('\n' :: (List.replicate 40 '=' ++ r))))))
      = halamanChars ++ (' ' :: ((d0 :: ds') ++
          ('\n' :: (List.replicate 40 '=' ++ r)))) := by
    have e : ('\n' :: (halamanChars ++ (' ' :: ((d0 :: ds') ++
        ('\n' :: (List.replicate 40 '=' ++ r))))))
        = ['\n'] ++ (halamanChars ++ (' ' :: ((d0 :: ds') ++
            ('\n' :: (List.replicate 40 '=' ++ r))))) := rfl
    rw [e]
    apply skipWs_append
    · intro c hc
      have : c = '\n' := by simpa using hc
      rw [this]; decide
    · have e2 : halamanChars ++ (' ' :: ((d0 :: ds') ++
          ('\n' :: (List.replicate 40 '=' ++ r))))
          = 'H' :: (['A', 'L', 'A', 'M', 'A', 'N'] ++ (' ' :: ((d0 :: ds') ++
              ('\n' :: (List.replicate 40 '=' ++ r))))) := rfl
      rw [e2]
      exact headPredOfCons _ 'H' _ (by decide)
  have hC : stripLitCI halamanChars (halamanChars ++ (' ' :: ((d0 :: ds') ++
      ('\n' :: (List.replicate 40 '=' ++ r)))))
      = some (' ' :: ((d0 :: ds') ++ ('\n' :: (List.replicate 40 '=' ++ r)))) :=
    stripLitCI_self _ _
  have hD : skipWs (' ' :: ((d0 :: ds') ++ ('\n' :: (List.replicate 40 '=' ++ r))))
      = (d0 :: ds') ++ ('\n' :: (List.replicate 40 '=' ++ r)) := by
    have e : (' ' :: ((d0 :: ds') ++ ('\n' :: (List.replicate 40 '=' ++ r))))
        = [' '] ++ ((d0 :: ds') ++ ('\n' :: (List.replicate 40 '=' ++ r))) := rfl
    rw [e]
    apply skipWs_append
    · intro c hc
      have : c = ' ' := by simpa using hc
      rw [this]; decide
    · exact headPredOfCons _ d0 _
        (digit_not_ws d0 (hdigit d0 (List.mem_cons_self d0 ds')))
  have hE : reqRun isDigitChar 1 ((d0 :: ds') ++ ('\n' :: (List.replicate 40 '=' ++ r)))
      = some ('\n' :: (List.replicate 40 '=' ++ r)) := by
    apply reqRun_append _ _ _ _ hdigit
    · exact headPredOfCons _ '\n' _ (by decide)
    · simp
  have hF : skipWs ('\n' :: (List.replicate 40 '=' ++ r))
      = List.replicate 40 '=' ++ r := by
    have e : ('\n' :: (List.replicate 40 '=' ++ r))
        = ['\n'] ++ (List.replicate 40 '=' ++ r) := rfl
    rw [e]
    apply skipWs_append
    · intro c hc
      have : c = '\n' := by simpa using hc
      rw [this]; decide
    · have e2 : List.replicate 40 '=' ++ r
          = '=' :: (List.replicate 39 '=' ++ r) := rfl
      rw [e2]
      exact headPredOfCons _ '=' _ (by decide)
  have hG : reqRun (fun c => c == '=') 10 (List.replicate 40 '=' ++ r) = some r := by
    exact reqRun_append _ 10 _ _ eqRunChars hr (by simp)
  unfold matchSepHere
  rw [hA]
  simp only [Option.some_bind]
  rw [hB, hC]
  simp only [Option.some_bind]
  rw [hD, hE]
  simp only [Option.some_bind]
  rw [hF, hG]

/-! ## Helper lemmas: the splitter -/

theorem splitGo_congr (f1 : Nat) : ∀ (f2 : Nat) (s acc : List Char),
    s.length ≤ f1 → s.length ≤ f2 → splitGo f1 s acc = splitGo f2 s acc := by
  induction f1 with
  | zero =>
    intro f2 s acc h1 _
    have : s = [] := by
      cases s with
      | nil => rfl
      | cons c rest => simp at h1
    subst this
    cases f2 <;> rfl
  | succ f1 ih =>
    intro f2 s acc h1 h2
    cases s with
    | nil => cases f2 <;> rfl
    | cons c rest =>
      cases f2 with
      | zero => simp at h2
      | succ f2 =>
        cases hm : matchSepHere (c :: rest) with
        | some r =>
          have hlen := matchSepHere_some_len _ _ hm
          simp only [List.length_cons] at hlen h1 h2
          simp only [splitGo, hm]
          have e1 := ih f2 r [] (by omega) (by omega)
          rw [e1]
        | none =>
          simp only [splitGo, hm]
          exact ih f2 rest (c :: acc) (by simp at h1; omega) (by simp at h2; omega)

theorem splitFrom_nil (acc : List Char) : splitFrom [] acc = [acc.reverse] := rfl

theorem splitFrom_cons_none (c : Char) (rest acc : List Char)
    (h : matchSepHere (c :: rest) = none) :
    splitFrom (c :: rest) acc = splitFrom rest (c :: acc) := by
  unfold splitFrom
  simp only [List.length_cons]
  simp only [splitGo, h]

theorem splitFrom_some (s r acc : List Char) (h : matchSepHere s = some r) :
    splitFrom s acc = acc.reverse :: splitFrom r [] := by
  cases s with
  | nil => rw [matchSepHere_nil] at h; exact absurd h (by simp)
  | cons c rest =>
    have hlen := matchSepHere_some_len _ _ h
    simp only [List.length_cons] at hlen
    unfold splitFrom
    simp only [List.length_cons]
    simp only [splitGo, h]
    have := splitGo_congr rest.length r.length r [] (by omega) (le_refl _)
    rw [this]

theorem splitFrom_scan (u : List Char) : ∀ (v acc : List Char),
    (∀ c ∈ u, (c == '=') = false) →
    splitFrom (u ++ v) acc = splitFrom v (u.reverse ++ acc) := by
  induction u with
  | nil => intro v acc _; simp
  | cons c u ih =>
    intro v acc hu
    have hc := hu c (List.mem_cons_self c u)
    have hnone := matchSepHere_none_head c (u ++ v) hc
    rw [List.cons_append, splitFrom_cons_none _ _ _ hnone,
        ih v (c :: acc) (fun d hd => hu d (List.mem_cons_of_mem c hd))]
    congr 1
    simp

theorem splitFrom_assembled (items : List (List Char × List Char)) :
    ∀ acc : List Char, (∀ it ∈ items, cleanItem it) →
    splitFrom (assembleItems items) acc
      = acc.reverse :: items.map (fun it => it.2) := by
  induction items with
  | nil => intro acc _; simp [assembleItems, splitFrom_nil]
  | cons it rest ih =>
    intro acc hit
    obtain ⟨h1, h2, h3, h4⟩ := hit it (List.mem_cons_self it rest)
    obtain ⟨b0, b', hb⟩ := List.exists_cons_of_ne_nil h3
    have hhead : ∀ c, (it.2 ++ assembleItems rest).head? = some c →
        (c == '=') = false := by
      intro c hc
      rw [hb] at hc
      have hbc : b0 = c := by simpa using hc
      exact hbc ▸ h4 b0 (by rw [hb]; exact List.mem_cons_self b0 b')
    have hsep := matchSepHere_sep it.1 (it.2 ++ assembleItems rest) h1 h2 hhead
    show splitFrom (sep it.1 ++ (it.2 ++ assembleItems rest)) acc = _
    rw [splitFrom_some _ _ _ hsep,
        splitFrom_scan it.2 (assembleItems rest) [] h4,
        ih _ (fun j hj => hit j (List.mem_cons_of_mem it hj))]
    simp

theorem splitSep_assembled (pre : List Char) (items : List (List Char × List Char))
    (hpre : ∀ c ∈ pre, (c == '=') = false)
    (hit : ∀ it ∈ items, cleanItem it) :
    splitSep (pre ++ assembleItems items) = pre :: items.map (fun it => it.2) := by
  unfold splitSep
  rw [splitFrom_scan pre _ [] hpre, splitFrom_assembled items _ hit]
  simp

/-! ## Helper lemmas: the page builder -/

theorem buildPages_length (i : Nat) (raws : List (List Char)) :
    (buildPages i raws).length = (acceptedBlocks raws).length := by
  induction raws generalizing i with
  | nil => rfl
  | cons b rest ih =>
    unfold acceptedBlocks at ih ⊢
    cases hb : parseBlock b with
    | some dsv => simp [buildPages, hb, List.filter_cons, ih (i + 1)]
    | none => simp [buildPages, hb, List.filter_cons, ih (i + 1)]

theorem buildPages_numbers (i : Nat) (raws : List (List Char)) :
    pageNumbersOf (buildPages i raws) = pagePositions i raws := by
  induction raws generalizing i with
  | nil => rfl
  | cons b rest ih =>
    have ih2 := ih (i + 1)
    unfold pageNumbersOf at ih2 ⊢
    cases hb : parseBlock b with
    | some dsv => simp [buildPages, pagePositions, hb, ih2]
    | none => simp [buildPages, pagePositions, hb, ih2]

/-! ## Claim C1 -/

/-- Claim C1 is refuted on this input: a malformed block followed by one
    well-formed block.  The parser returns exactly one page (K = 1), but
    its `pageNumber` is 2 — the raw position of its block among all
    blocks — not 1: the numbers are not `1..K` in blob order. -/
theorem c1_pageNumber_not_contiguous :
    (parseStoryResponse c1CexText).length = 1
    ∧ pageNumbersOf (parseStoryResponse c1CexText) = [2]
    ∧ pageNumbersOf (parseStoryResponse c1CexText) ≠ [1] := by
  refine ⟨?_, ?_, ?_⟩ <;> decide

/-- Claim C1 (amended): for every blob consisting of a `=`-free prefix
    followed by separator-delimited blocks (each block non-empty and
    `=`-free, each separator carrying an arbitrary non-empty digit
    token), the parser returns exactly one page per block accepted by the
    section grammar, in blob order, independent of the separator number
    tokens; but each page's `pageNumber` is one plus the raw position of
    its block among ALL blocks (malformed ones included), so the numbers
    are `1..K` only when no malformed block precedes an accepted one. -/
theorem c1_parseStoryResponse_assembled (pre : List Char)
    (items : List (List Char × List Char))
    (hpre : ∀ c ∈ pre, (c == '=') = false)
    (hit : ∀ it ∈ items, cleanItem it) :
    parseStoryResponse (pre ++ assembleItems items)
      = buildPages 0 (items.map fun it => it.2)
    ∧ (parseStoryResponse (pre ++ assembleItems items)).length
      = (acceptedBlocks (items.map fun it => it.2)).length
    ∧ pageNumbersOf (parseStoryResponse (pre ++ assembleItems items))
      = pagePositions 0 (items.map fun it => it.2) := by
  have hsplit := splitSep_assembled pre items hpre hit
  have hmain : parseStoryResponse (pre ++ assembleItems items)
      = buildPages 0 (items.map fun it => it.2) := by
    unfold parseStoryResponse
    rw [hsplit]
    rfl
  refine ⟨hmain, ?_, ?_⟩
  · rw [hmain, buildPages_length]
  · rw [hmain, buildPages_numbers]

/-- Claim C1 witness: the amended theorem evaluated on a concrete blob
    with one malformed and one well-formed block. -/
theorem c1_parseStoryResponse_assembled_witness :
    (parseStoryResponse ([] ++ assembleItems [(['7'], badBlock), (['3'], goodBlock)])).length = 1 := by
  have h := c1_parseStoryResponse_assembled []
    [(['7'], badBlock), (['3'], goodBlock)] (by simp) (by decide)
  exact h.2.1.trans (by decide)

/-! ## Claim C3 -/

/-- Claim C3 is refuted on this input: a block whose three labels are all
    present but whose section contents are empty after trimming is
    emitted (with empty fields), not dropped. -/
theorem c3_empty_sections_emitted :
    parseStoryResponse c3CexText
      = [{ pageNumber := 1, illustrationDescription := [], storyText := [],
           voiceText := [], imageUrl := none, audioBuffer := none,
           isLoadingAssets := true }] := by
  decide

/-- Claim C3 (amended): a page is emitted into the result exactly when
    all three section regexes match (labels present in the required
    arrangement); emptiness of the trimmed contents plays no role in the
    filter, so a block with present labels and empty contents passes. -/
theorem c3_emission_is_match_truthiness (raws : List (List Char)) (i : Nat) :
    (buildPages i raws).length = (acceptedBlocks raws).length
    ∧ (∀ raw, (parseBlock raw).isSome
        ↔ ((descCapture raw).isSome ∧ (storyCapture raw).isSome
            ∧ (voiceCapture raw).isSome)) := by
  refine ⟨buildPages_length i raws, ?_⟩
  intro raw
  unfold parseBlock
  cases hd : descCapture raw <;> cases hs : storyCapture raw <;>
    cases hv : voiceCapture raw <;> simp

/-- Claim C3 witness: the amended theorem evaluated on the block with
    present labels and empty contents. -/
theorem c3_emission_is_match_truthiness_witness :
    (buildPages 0 [emptyLabelsBlock]).length = 1 := by
  exact (c3_emission_is_match_truthiness [emptyLabelsBlock] 0).1.trans (by decide)

/-! ## Claim C4 -/

/-- Claim C4: whenever `currentPageIndex > 0`, the previous-page handler
    performs `prev + 1` — the same update as the next-page handler —
    never `prev - 1`; hence from a last-page state with index `n - 1 ≥ 1`
    it moves the index to `n`, outside the valid range `0..n-1`. -/
theorem c4_handlePrev_increments (n idx : Nat) (h : 0 < idx) :
    handlePrev idx = idx + 1
    ∧ handlePrev idx ≠ idx - 1
    ∧ (idx < n - 1 → handleNext n idx = handlePrev idx)
    ∧ (idx = n - 1 → ¬ handlePrev idx < n) := by
  have e : handlePrev idx = idx + 1 := by unfold handlePrev; rw [if_pos h]
  refine ⟨e, by rw [e]; omega, ?_, ?_⟩
  · intro h2
    unfold handleNext
    rw [if_pos h2, e]
  · intro h2
    rw [e]
    omega

/-- Claim C4 witness: with 3 pages and current index 2 (the last page),
    the previous-page handler yields 3, which is out of range. -/
theorem c4_handlePrev_increments_witness :
    handlePrev 2 = 3 ∧ ¬ handlePrev 2 < 3 := by
  have h := c4_handlePrev_increments 3 2 (by decide)
  exact ⟨h.1, h.2.2.2 (by decide)⟩

/-! ## Claim C2 -/

/-- Claim C2: on a sequence whose first page has no image and whose
    second page has one, the export draws exactly the one page that has
    an image, but the produced document has 2 pages, not 1: `addPage` is
    keyed on the overall index `i > 0` while jsPDF starts with one page,
    so the initial page is left blank instead of being reused. -/
theorem c2_pdf_blank_first_page :
    (handleDownloadPdf c2FailPages).pageCount = 2
    ∧ (pagesWithImage c2FailPages).length = 1
    ∧ (handleDownloadPdf c2FailPages).drawnImages = [['i']] := by
  refine ⟨?_, ?_, ?_⟩ <;> decide

/-! ## Claim C8 -/

/-- Claim C8: `generateIllustration` never propagates a failure — the
    result is always either the data URI of the first inline image part
    of a successful response, or the placeholder URL. -/
theorem c8_generateIllustration_total (resp : Except Unit (Option (List GenPart)))
    (rand : List Char) :
    generateIllustration resp rand = placeholderUrl rand
    ∨ ∃ parts d, resp = Except.ok (some parts) ∧ findInlineImage parts = some d
        ∧ generateIllustration resp rand = dataUriStart ++ d := by
  match resp with
  | Except.error e => left; rfl
  | Except.ok none => left; rfl
  | Except.ok (some parts) =>
    cases hf : findInlineImage parts with
    | none => left; simp [generateIllustration, hf]
    | some d => right; exact ⟨parts, d, rfl, hf, by simp [generateIllustration, hf]⟩

/-! ## Claim C9 -/

/-- Claim C9: the per-page merge is a no-op when no page exists at the
    target index (the guard protecting against results that arrive after
    a session reset), and when the page exists it changes only the record
    at that index, preserving every other entry and the length. -/
theorem c9_updatePage_frame (pages : List StoryPage) (index : Nat)
    (updates : PageUpdates) :
    (pages[index]? = none → updatePage pages index updates = pages)
    ∧ (∀ j, j ≠ index → (updatePage pages index updates)[j]? = pages[j]?)
    ∧ (updatePage pages index updates).length = pages.length := by
  refine ⟨?_, ?_, ?_⟩
  · intro h
    unfold updatePage
    rw [h]
  · intro j hj
    unfold updatePage
    cases h : pages[index]? with
    | none => rfl
    | some p => exact List.getElem?_set_ne (fun e => hj e.symm)
  · unfold updatePage
    cases h : pages[index]? with
    | none => rfl
    | some p => exact List.length_set pages index _

/-- Claim C9 witness: a merge aimed at index 0 of an emptied (reset) page
    sequence leaves it empty, and a merge at index 0 of a two-page
    sequence leaves the entry at index 1 unchanged. -/
theorem c9_updatePage_frame_witness :
    updatePage [] 0 (PageUpdates.mk (some (some ['x'])) none none) = []
    ∧ (updatePage [samplePage 1, samplePage 2] 0
        (PageUpdates.mk (some (some ['x'])) none none))[1]? = some (samplePage 2) := by
  constructor
  · exact (c9_updatePage_frame [] 0 _).1 rfl
  · exact ((c9_updatePage_frame [samplePage 1, samplePage 2] 0 _).2.1 1
      (by decide)).trans (by decide)

/-! ## Claim C10 -/

theorem assetLoop_narCalls (genIll : List Char → List Char)
    (genNar : List Char → Option Nat) (l : List StoryPage) :
    ∀ (i : Nat) (st : PipelineState),
    (assetLoop genIll genNar l i st).narCalls = st.narCalls ++ storyTextsOf l := by
  induction l with
  | nil =>
    intro i st
    simp [assetLoop, storyTextsOf]
  | cons page rest ih =>
    intro i st
    unfold assetLoop
    rw [ih]
    unfold storyTextsOf
    simp

/-- Claim C10: the background pipeline requests narration for each page's
    `storyText`, in page order; any string different from every page's
    `storyText` — in particular a `voiceText` that differs from the page
    texts — is never passed to `generateNarration`. -/
theorem c10_narration_uses_storyText (genIll : List Char → List Char)
    (genNar : List Char → Option Nat) (storyPages cur : List StoryPage) :
    (generateAssetsInBackground genIll genNar storyPages cur).narCalls
      = storyTextsOf storyPages
    ∧ ∀ v, (∀ p ∈ storyPages, v ≠ p.storyText) →
        v ∉ (generateAssetsInBackground genIll genNar storyPages cur).narCalls := by
  have hfirst : (generateAssetsInBackground genIll genNar storyPages cur).narCalls
      = storyTextsOf storyPages := by
    unfold generateAssetsInBackground
    rw [assetLoop_narCalls]
    simp
  refine ⟨hfirst, ?_⟩
  intro v hv hmem
  rw [hfirst] at hmem
  unfold storyTextsOf at hmem
  obtain ⟨p, hp, he⟩ := List.mem_map.mp hmem
  exact hv p hp he.symm

/-- Claim C10 witness: a string that is no page's `storyText` (here the
    sample page's `voiceText`, `"v"`) never reaches the narration call
    log. -/
theorem c10_narration_uses_storyText_witness :
    (['v'] : List Char) ∉ (generateAssetsInBackground id
      (Function.const (List Char) (none : Option Nat))
      [samplePage 1] [samplePage 1]).narCalls := by
  exact (c10_narration_uses_storyText id
    (Function.const (List Char) (none : Option Nat))
    [samplePage 1] [samplePage 1]).2 ['v'] (by decide)

/-! ## Claim C5 -/

theorem stopAudio_spec {β : Type} (t : Transport β) (hinv : transportInv t) :
    (stopAudio t).activeNodes = [] ∧ (stopAudio t).refNode = none
    ∧ (stopAudio t).playing = none := by
  unfold transportInv at hinv
  unfold stopAudio
  cases hr : t.refNode with
  | none =>
    rw [hr] at hinv
    simp at hinv
    simp [hinv]
  | some node =>
    rw [hr] at hinv
    simp at hinv
    simp [hinv, List.filter_cons]

/-- Claim C5: under the transport invariant (the started-and-unreleased
    nodes are exactly the referenced one), toggling is a no-op on an
    absent buffer; toggling any buffer leaves at most one active node and
    preserves the invariant; toggling the buffer that is playing leaves
    the system idle (no active node, no reference, nothing playing); and
    toggling a different buffer while one plays stops the old node and
    leaves exactly the new buffer playing — never both. -/
theorem c5_toggleAudio_single_active {β : Type} [DecidableEq β]
    (t : Transport β) (a b : β) (hinv : transportInv t) :
    toggleAudio none t = t
    ∧ (toggleAudio (some b) t).activeNodes.length ≤ 1
    ∧ transportInv (toggleAudio (some b) t)
    ∧ (t.playing = some a →
        (toggleAudio (some a) t).activeNodes = []
        ∧ (toggleAudio (some a) t).playing = none
        ∧ (toggleAudio (some a) t).refNode = none)
    ∧ (t.playing = some a → a ≠ b →
        (toggleAudio (some b) t).activeNodes.map Prod.snd = [b]
        ∧ (toggleAudio (some b) t).playing = some b) := by
  obtain ⟨hs1, hs2, hs3⟩ := stopAudio_spec t hinv
  have htoggle_same : ∀ x : β, t.playing = some x →
      toggleAudio (some x) t = stopAudio t := by
    intro x hx
    have e : toggleAudio (some x) t
        = if t.playing = some x then stopAudio t else playAudio x t := rfl
    rw [e, if_pos hx]
  have htoggle_diff : ∀ x : β, t.playing ≠ some x →
      toggleAudio (some x) t = playAudio x t := by
    intro x hx
    have e : toggleAudio (some x) t
        = if t.playing = some x then stopAudio t else playAudio x t := rfl
    rw [e, if_neg hx]
  refine ⟨rfl, ?_, ?_, ?_, ?_⟩
  · by_cases hpb : t.playing = some b
    · rw [htoggle_same b hpb, hs1]
      simp
    · rw [htoggle_diff b hpb]
      unfold playAudio
      simp [hs1]
  · by_cases hpb : t.playing = some b
    · rw [htoggle_same b hpb]
      unfold transportInv
      rw [hs1, hs2]
      rfl
    · rw [htoggle_diff b hpb]
      unfold playAudio transportInv
      simp [hs1, hs2]
  · intro hpa
    rw [htoggle_same a hpa]
    exact ⟨hs1, hs3, hs2⟩
  · intro hpa hab
    have hnb : t.playing ≠ some b := by
      rw [hpa]
      intro he
      exact hab (by injection he)
    rw [htoggle_diff b hnb]
    unfold playAudio
    constructor
    · simp [hs1]
    · rfl

/-- Claim C5 witness: with buffer 5 playing, toggling 5 goes idle, and
    toggling 7 leaves exactly buffer 7 active. -/
theorem c5_toggleAudio_single_active_witness :
    (toggleAudio (some 5) (playAudio 5 (Transport.mk 0 [] none (none : Option Nat)))).activeNodes = []
    ∧ (toggleAudio (some 7) (playAudio 5 (Transport.mk 0 [] none (none : Option Nat)))).activeNodes.map Prod.snd = [7] := by
  have h := c5_toggleAudio_single_active
    (playAudio 5 (Transport.mk 0 [] none (none : Option Nat))) 5 7
    (by unfold transportInv; rfl)
  exact ⟨(h.2.2.2.1 rfl).1, (h.2.2.2.2 rfl (by decide)).1⟩

/-! ## Claim C6 -/

theorem bytesToInt16LE_roundtrip (samples : List Int)
    (h : ∀ s ∈ samples, -32768 ≤ s ∧ s < 32768) :
    bytesToInt16LE (encodeInt16LE samples) = samples := by
  induction samples with
  | nil => rfl
  | cons s rest ih =>
    obtain ⟨h1, h2⟩ := h s (List.mem_cons_self s rest)
    have ihh := ih (fun x hx => h x (List.mem_cons_of_mem s hx))
    have e : bytesToInt16LE (encodeInt16LE (s :: rest))
        = (if (s % 65536).toNat % 256 + 256 * ((s % 65536).toNat / 256) < 32768
           then (((s % 65536).toNat % 256 + 256 * ((s % 65536).toNat / 256) : Nat) : Int)
           else (((s % 65536).toNat % 256 + 256 * ((s % 65536).toNat / 256) : Nat) : Int) - 65536)
          :: bytesToInt16LE (encodeInt16LE rest) := rfl
    rw [e, ihh]
    congr 1
    rw [Nat.mod_add_div]
    split <;> omega

theorem map_range_getD (l : List Int) (f : Int → ℚ) :
    (List.range l.length).map (fun i => f (l.getD i 0)) = l.map f := by
  induction l with
  | nil => rfl
  | cons a l ih =>
    simp only [List.length_cons, List.range_succ_eq_map, List.map_cons,
      List.map_map, List.getD_cons_zero]
    congr 1

theorem normalized_bounds (s : Int) (h1 : -32768 ≤ s) (h2 : s < 32768) :
    (-1 : ℚ) ≤ (s : ℚ) / 32768 ∧ ((s : ℚ) / 32768) ≤ 1 := by
  have h32 : (0 : ℚ) < 32768 := by norm_num
  constructor
  · rw [le_div_iff₀ h32]
    have hc : ((-32768 : Int) : ℚ) ≤ (s : ℚ) := by exact_mod_cast h1
    push_cast at hc
    linarith
  · rw [div_le_one h32]
    have hc : (s : ℚ) ≤ ((32768 : Int) : ℚ) := by
      exact_mod_cast le_of_lt h2
    push_cast at hc
    linarith

/-- Claim C6: feeding the little-endian encoding of 16-bit signed
    samples to the raw-PCM fallback at 24000 Hz mono yields one frame per
    sample; each float sample is exactly the integer divided by 32768,
    hence lies in [-1, 1] and is within 1/32768 of the original
    normalized value. -/
theorem c6_decode_roundtrip (samples : List Int)
    (h : ∀ s ∈ samples, -32768 ≤ s ∧ s < 32768) :
    (decodeAudioDataFallback (encodeInt16LE samples) 24000 1).frameCount
      = samples.length
    ∧ (decodeAudioDataFallback (encodeInt16LE samples) 24000 1).numChannels = 1
    ∧ (decodeAudioDataFallback (encodeInt16LE samples) 24000 1).sampleRate = 24000
    ∧ (decodeAudioDataFallback (encodeInt16LE samples) 24000 1).channels
      = [samples.map (fun s : Int => ((s : ℚ) / 32768))]
    ∧ (∀ s ∈ samples, (-1 : ℚ) ≤ (s : ℚ) / 32768 ∧ ((s : ℚ) / 32768) ≤ 1
        ∧ |((s : ℚ) / 32768) - ((s : ℚ) / 32768)| ≤ 1 / 32768) := by
  have hrt := bytesToInt16LE_roundtrip samples h
  unfold decodeAudioDataFallback
  rw [hrt]
  refine ⟨by simp, rfl, rfl, ?_, ?_⟩
  · have hr1 : List.range 1 = [0] := rfl
    rw [hr1]
    simp only [List.map_cons, List.map_nil, Nat.div_one, Nat.mul_one, Nat.add_zero]
    congr 1
    exact map_range_getD samples fun s : Int => ((s : ℚ) / 32768)
  · intro s hs
    obtain ⟨h1, h2⟩ := h s hs
    obtain ⟨hb1, hb2⟩ := normalized_bounds s h1 h2
    refine ⟨hb1, hb2, ?_⟩
    simp

/-- Claim C6 witness: the round-trip theorem evaluated on the sample
    array [0, 1, -1, 32767, -32768]. -/
theorem c6_decode_roundtrip_witness :
    (decodeAudioDataFallback (encodeInt16LE [0, 1, -1, 32767, -32768]) 24000 1).frameCount = 5 := by
  exact (c6_decode_roundtrip [0, 1, -1, 32767, -32768] (by decide)).1.trans (by decide)

/-! ## Claim C7 -/

/-- Claim C7: with a non-empty topic, the session ends in the error state
    exactly when the backend returned no text (or empty text) or the
    parser produced zero pages; `generateStoryText` itself throws on
    missing/empty text; otherwise the app reaches the reading state with
    the parsed pages; and the reset always returns to the input state
    with the pages cleared. -/
theorem c7_fatal_iff (st : AppModel) (responseText : Option (List Char))
    (h : trimWs st.topic ≠ []) :
    ((handleGenerate st responseText).appState = AppState.error
      ↔ (responseText = none
          ∨ ∃ t, responseText = some t ∧ (t = [] ∨ parseStoryResponse t = [])))
    ∧ ((responseText = none ∨ responseText = some []) →
        ∃ msg, generateStoryText responseText = Except.error msg)
    ∧ (∀ t, responseText = some t → t ≠ [] → parseStoryResponse t ≠ [] →
        (handleGenerate st responseText).appState = AppState.reading
        ∧ (handleGenerate st responseText).pages = parseStoryResponse t)
    ∧ resetApp.appState = AppState.input ∧ resetApp.pages = [] := by
  cases responseText with
  | none =>
    have hg : generateStoryText none = Except.error "No text generated".toList := rfl
    have hh : handleGenerate st none
        = { st with appState := AppState.error,
                    errorMsg := some "No text generated".toList } := by
      unfold handleGenerate
      rw [if_neg h, hg]
    refine ⟨?_, fun _ => ⟨_, hg⟩, ?_, rfl, rfl⟩
    · rw [hh]
      simp
    · intro t ht
      exact absurd ht (by simp)
  | some t =>
    by_cases ht : t = []
    · subst ht
      have hg : generateStoryText (some ([] : List Char))
          = Except.error "No text generated".toList := rfl
      have hh : handleGenerate st (some [])
          = { st with appState := AppState.error,
                      errorMsg := some "No text generated".toList } := by
        unfold handleGenerate
        rw [if_neg h, hg]
      refine ⟨?_, fun _ => ⟨_, hg⟩, ?_, rfl, rfl⟩
      · rw [hh]
        constructor
        · intro _
          exact Or.inr ⟨[], rfl, Or.inl rfl⟩
        · intro _
          rfl
      · intro t2 ht2 hne _
        have : ([] : List Char) = t2 := by simpa using ht2
        exact absurd this.symm hne
    · have hg : generateStoryText (some t) = Except.ok (parseStoryResponse t) := by
        have e : generateStoryText (some t)
            = if t = [] then Except.error "No text generated".toList
              else Except.ok (parseStoryResponse t) := rfl
        rw [e, if_neg ht]
      by_cases hp : parseStoryResponse t = []
      · have hh : handleGenerate st (some t)
            = { st with appState := AppState.error,
                        errorMsg := some "Failed to generate valid story structure.".toList } := by
          unfold handleGenerate
          rw [if_neg h, hg]
          show (if (parseStoryResponse t).length = 0
                then { st with appState := AppState.error,
                               errorMsg := some "Failed to generate valid story structure.".toList }
                else { st with appState := AppState.reading,
                               pages := parseStoryResponse t }) = _
          rw [if_pos (by rw [hp]; rfl)]
        refine ⟨?_, ?_, ?_, rfl, rfl⟩
        · rw [hh]
          constructor
          · intro _
            exact Or.inr ⟨t, rfl, Or.inr hp⟩
          · intro _
            rfl
        · intro hor
          rcases hor with h1 | h1
          · exact absurd h1 (by simp)
          · have : t = [] := by simpa using h1
            exact absurd this ht
        · intro t2 ht2 _ hp2
          have het : t = t2 := by simpa using ht2
          exact absurd (het ▸ hp) hp2
      · have hlen : ¬ (parseStoryResponse t).length = 0 := by
          intro h0
          exact hp (List.length_eq_zero.mp h0)
        have hh : handleGenerate st (some t)
            = { st with appState := AppState.reading,
                        pages := parseStoryResponse t } := by
          unfold handleGenerate
          rw [if_neg h, hg]
          show (if (parseStoryResponse t).length = 0
                then { st with appState := AppState.error,
                               errorMsg := some "Failed to generate valid story structure.".toList }
                else { st with appState := AppState.reading,
                               pages := parseStoryResponse t }) = _
          rw [if_neg hlen]
        refine ⟨?_, ?_, ?_, rfl, rfl⟩
        · rw [hh]
          constructor
          · intro habs
            exact absurd habs (by simp)
          · intro hor
            rcases hor with h1 | h1
            · exact absurd h1 (by simp)
            · obtain ⟨t2, ht2, hcase⟩ := h1
              have het : t = t2 := by simpa using ht2
              rcases hcase with h2 | h2
              · exact absurd (het ▸ h2) ht
              · exact absurd (het ▸ h2) hp
        · intro hor
          rcases hor with h1 | h1
          · exact absurd h1 (by simp)
          · have : t = [] := by simpa using h1
            exact absurd this ht
        · intro t2 ht2 _ _
          have het : t = t2 := by simpa using ht2
          subst het
          rw [hh]
          exact ⟨rfl, rfl⟩

/-- Claim C7 witness: with topic "cat" and an empty backend text, the app
    lands in the error state, and resetting returns to input. -/
theorem c7_fatal_iff_witness :
    (handleGenerate (AppModel.mk AppState.input "cat".toList [] none)
      (some [])).appState = AppState.error
    ∧ resetApp.appState = AppState.input := by
  have h := c7_fatal_iff (AppModel.mk AppState.input "cat".toList [] none)
    (some []) (by decide)
  exact ⟨h.1.mpr (Or.inr ⟨[], rfl, Or.inl rfl⟩), h.2.2.2.1⟩

end Storybook
